import Mathlib

/-!
Shallow embedding of `src/spoiler_bot.py` (class `SpoilerBot`).

Strings are modelled as `List Char`.  Python `str.lower` is modelled on the
ASCII range (all keywords and texts in the claims are ASCII); `re`'s `\w`
class is modelled as ASCII letters, digits and underscore.  The patterns the
bot builds are always `r'\b' + re.escape(keyword) + r'\b'`, i.e. a literal
keyword between two word boundaries, so regex matching is embedded directly
as literal matching plus the word-boundary test on the neighbouring
characters, exactly as Python's `re` evaluates such a pattern.
-/

namespace SpoilerBot

/-- The upper-to-lower table of the ASCII range. -/
def lowerPairs : List (Char × Char) :=
  [('A', 'a'), ('B', 'b'), ('C', 'c'), ('D', 'd'), ('E', 'e'), ('F', 'f'),
   ('G', 'g'), ('H', 'h'), ('I', 'i'), ('J', 'j'), ('K', 'k'), ('L', 'l'),
   ('M', 'm'), ('N', 'n'), ('O', 'o'), ('P', 'p'), ('Q', 'q'), ('R', 'r'),
   ('S', 's'), ('T', 't'), ('U', 'u'), ('V', 'v'), ('W', 'w'), ('X', 'x'),
   ('Y', 'y'), ('Z', 'z')]

/-- ASCII case folding, modelling Python's `str.lower` / `re.IGNORECASE`
comparison on the ASCII range (explicit table, no character arithmetic). -/
def lowerChar (c : Char) : Char :=
  match lowerPairs.find? (fun p => p.1 == c) with
  | some p => p.2
  | none => c

/-- Python `text.lower()`. -/
def lowerStr (s : List Char) : List Char := s.map lowerChar

/-- Membership in the regex `\w` class (ASCII): letter, digit or underscore. -/
def isWordChar (c : Char) : Bool := c.isAlpha || c.isDigit || c = '_'

/-- Whether position `i` of `t` holds a word character (out of range: no). -/
def wordAt (t : List Char) (i : Nat) : Bool := isWordChar (t.getD i ' ')

/-- The `\b` assertion of Python `re` at position `i` of `t`: a word
character on exactly one side of the position. -/
def boundaryAt (t : List Char) (i : Nat) : Bool :=
  (decide (0 < i) && wordAt t (i - 1)) != wordAt t i

/-- Case folding applied during matching when `ci` (ignore-case) is set. -/
def foldC (ci : Bool) (c : Char) : Char := if ci then lowerChar c else c

/-- The escaped literal `kw` matches in `t` at position `i`
(case-insensitively when `ci`). -/
def literalAt (ci : Bool) (t kw : List Char) (i : Nat) : Bool :=
  ((t.drop i).take kw.length).map (foldC ci) == kw.map (foldC ci)

/-- The pattern `\b + re.escape(kw) + \b` matches in `t` at position `i`. -/
def wordMatchAt (ci : Bool) (t kw : List Char) (i : Nat) : Bool :=
  boundaryAt t i && literalAt ci t kw i && boundaryAt t (i + kw.length)

/-- `re.search` for the pattern `\b + re.escape(kw) + \b` over `t`. -/
def wordSearch (ci : Bool) (t kw : List Char) : Bool :=
  (List.range (t.length + 1)).any (fun i => wordMatchAt ci t kw i)

/-- In-memory state of the bot: the fields set up in `SpoilerBot.__init__`.
`spoiler_keywords` is the per-chat keyword map (association list standing
for the Python dict of sets), `admin_users` and `enabled_chats` stand for
the Python sets of ids. -/
structure BotState where
  spoiler_keywords : List (Int × List (List Char))
  case_sensitive : Bool
  admin_users : List Int
  enabled_chats : List Int
deriving DecidableEq, Repr

/-- The defaults assigned in `__init__` before `load_config` runs. -/
def defaultState : BotState :=
  { spoiler_keywords := [], case_sensitive := false
    admin_users := [], enabled_chats := [] }

/-- Association-list lookup for the keyword dict. -/
def lookupEntry : List (Int × List (List Char)) → Int → Option (List (List Char))
  | [], _ => none
  | (k, v) :: rest, key => if k = key then some v else lookupEntry rest key

/-- Update (or append) the entry of `key` in the keyword dict. -/
def setEntry : List (Int × List (List Char)) → Int → List (List Char) →
    List (Int × List (List Char))
  | [], key, v => [(key, v)]
  | (k, w) :: rest, key, v =>
    if k = key then (k, v) :: rest else (k, w) :: setEntry rest key v

/-- Delete the entry of `key` from the keyword dict (`del` in Python). -/
def removeEntry : List (Int × List (List Char)) → Int →
    List (Int × List (List Char))
  | [], _ => []
  | (k, w) :: rest, key =>
    if k = key then removeEntry rest key else (k, w) :: removeEntry rest key

/-- Set insertion (Python `set.add`). -/
def setInsert {α : Type} [DecidableEq α] (xs : List α) (x : α) : List α :=
  if x ∈ xs then xs else xs ++ [x]

/-- Set deletion (Python `set.remove` / `set.discard`). -/
def setRemove {α : Type} [DecidableEq α] (xs : List α) (x : α) : List α :=
  xs.filter (fun y => y ≠ x)

/-- `SpoilerBot.get_chat_keywords`: the chat's set, empty if unknown. -/
def get_chat_keywords (st : BotState) (chat_id : Int) : List (List Char) :=
  (lookupEntry st.spoiler_keywords chat_id).getD []

/-- The `keyword.lower() if not self.case_sensitive else keyword` step
shared by `add_chat_keyword` and `remove_chat_keyword`. -/
def processKw (st : BotState) (kw : List Char) : List Char :=
  if st.case_sensitive then kw else lowerStr kw

/-- `SpoilerBot.add_chat_keyword`. -/
def add_chat_keyword (st : BotState) (chat_id : Int) (kw : List Char) : BotState :=
  let cur := get_chat_keywords st chat_id
  { st with spoiler_keywords :=
      setEntry st.spoiler_keywords chat_id (setInsert cur (processKw st kw)) }

/-- `SpoilerBot.remove_chat_keyword`: removes the processed keyword, prunes
the chat's entry when its set becomes empty, and reports success. -/
def remove_chat_keyword (st : BotState) (chat_id : Int) (kw : List Char) :
    BotState × Bool :=
  match lookupEntry st.spoiler_keywords chat_id with
  | none => (st, false)
  | some cur =>
    let p := processKw st kw
    if p ∈ cur then
      let newSet := setRemove cur p
      if newSet = [] then
        ({ st with spoiler_keywords := removeEntry st.spoiler_keywords chat_id },
         true)
      else
        ({ st with spoiler_keywords := setEntry st.spoiler_keywords chat_id newSet },
         true)
    else (st, false)

/-- `SpoilerBot.contains_spoiler_keywords`: the found keywords of the chat,
searching the (lowered, when case-insensitive) text with `\b kw \b`. -/
def contains_spoiler_keywords (st : BotState) (text : List Char) (chat_id : Int) :
    List (List Char) :=
  let chat_keywords := get_chat_keywords st chat_id
  if chat_keywords = [] then []
  else
    let search_text := if st.case_sensitive then text else lowerStr text
    chat_keywords.filter (fun kw => wordSearch (!st.case_sensitive) search_text kw)

/-- One left-to-right pass of `re.sub` with pattern `\b kw \b` and literal
replacement `repl` over `t`, from position `i` (fuelled structural
recursion; `re_sub_word` supplies adequate fuel).  Non-overlapping matches
are replaced, an empty-pattern match additionally copies the current
character before advancing, exactly as Python's `re.sub` scans. -/
def subFrom (ci : Bool) (kw repl t : List Char) : Nat → Nat → List Char
  | i, 0 => t.drop i
  | i, fuel + 1 =>
    if i < t.length then
      if wordMatchAt ci t kw i then
        if kw.length = 0 then
          repl ++ (t.drop i).take 1 ++ subFrom ci kw repl t (i + 1) fuel
        else
          repl ++ subFrom ci kw repl t (i + kw.length) fuel
      else (t.drop i).take 1 ++ subFrom ci kw repl t (i + 1) fuel
    else if wordMatchAt ci t kw i then repl else []

/-- `re.sub(r'\b'+re.escape(kw)+r'\b', repl, t, flags)`. -/
def re_sub_word (ci : Bool) (kw repl t : List Char) : List Char :=
  subFrom ci kw repl t 0 (t.length + 1)

/-- The replacement string `f'||{keyword}||'`. -/
def spoilerWrap (kw : List Char) : List Char :=
  '|' :: '|' :: (kw ++ ['|', '|'])

/-- `SpoilerBot.apply_spoiler_tags`: substitute each found keyword in turn. -/
def apply_spoiler_tags (st : BotState) (text : List Char)
    (keywords : List (List Char)) : List Char :=
  keywords.foldl
    (fun result_text kw =>
      re_sub_word (!st.case_sensitive) kw (spoilerWrap kw) result_text)
    text

/-- Outcome of `SpoilerBot.handle_message` for one inbound text message.
`succeeded` carries the republished text and the thread it was posted to
(original deleted, redacted text sent); `degraded` carries the thread the
single warning notice was posted to. -/
inductive PipelineResult where
  | skipped
  | succeeded (posted : List Char) (thread : Nat)
  | degraded (thread : Nat)
deriving DecidableEq, Repr

/-- `SpoilerBot.handle_message`.  The Telegram transport is a collaborator:
`mention` is the precomputed `@username`-or-first-name attribution,
`thread` the message's `message_thread_id`, and `deleteOk` / `sendOk`
whether the two outbound calls (delete original, send redacted) succeed.
A `TelegramError` in either call takes the warning branch. -/
def handle_message (st : BotState) (chat_id : Int) (text : List Char)
    (mention : List Char) (thread : Nat) (deleteOk sendOk : Bool) :
    PipelineResult :=
  if chat_id ∉ st.enabled_chats then .skipped
  else
    let found_keywords := contains_spoiler_keywords st text chat_id
    if found_keywords = [] then .skipped
    else
      let spoiler_text := apply_spoiler_tags st text found_keywords
      let new_message := mention ++ (':' :: ' ' :: spoiler_text)
      if deleteOk && sendOk then .succeeded new_message thread
      else .degraded thread

/-- `SpoilerBot.is_admin`. -/
def is_admin (st : BotState) (user_id : Int) : Bool :=
  user_id ∈ st.admin_users

/-- Reply class of a command handler: success, the permission-denied reply,
or the usage-error reply. -/
inductive ReplyKind where
  | ok
  | permissionDenied
  | usageError
deriving DecidableEq, Repr

/-- Python `int(s)` on a command argument (sign and ASCII digits; the
whitespace stripping and digit-group underscores Python also accepts never
occur in the bot's own data and are not modelled). -/
def charToDigit (c : Char) : Option Nat :=
  if c = '0' then some 0 else if c = '1' then some 1 else if c = '2' then some 2
  else if c = '3' then some 3 else if c = '4' then some 4
  else if c = '5' then some 5 else if c = '6' then some 6
  else if c = '7' then some 7 else if c = '8' then some 8
  else if c = '9' then some 9 else none

def parseNatAux : List Char → Nat → Option Nat
  | [], acc => some acc
  | c :: rest, acc =>
    match charToDigit c with
    | some d => parseNatAux rest (acc * 10 + d)
    | none => none

def parseNat (s : List Char) : Option Nat :=
  if s = [] then none else parseNatAux s 0

def parseInt (s : List Char) : Option Int :=
  if s = [] then none
  else if s.headD ' ' = '-' then
    (parseNat (s.drop 1)).map (fun n => -(Int.ofNat n))
  else if s.headD ' ' = '+' then
    (parseNat (s.drop 1)).map (fun n => Int.ofNat n)
  else (parseNat s).map (fun n => Int.ofNat n)

/-- `SpoilerBot.add_admin_command`: the bootstrap gate
(`not is_admin and len(admin_users) > 0` rejects), then the argument check,
then `int(args[0])` with a usage reply on `ValueError`. -/
def add_admin_command (st : BotState) (caller : Int) (args : List (List Char)) :
    BotState × ReplyKind :=
  if !is_admin st caller && decide (0 < st.admin_users.length) then
    (st, .permissionDenied)
  else
    match args with
    | [] => (st, .usageError)
    | a :: _ =>
      match parseInt a with
      | some user_id =>
        ({ st with admin_users := setInsert st.admin_users user_id }, .ok)
      | none => (st, .usageError)

/-- `SpoilerBot.sync_group_admins`: the platform's administrator list for a
chat, as `(user_id, is_bot)` pairs; every non-bot id not already recognised
is added. -/
def sync_group_admins (st : BotState) (chat_admins : List (Int × Bool)) :
    BotState :=
  { st with admin_users :=
      (chat_admins.foldl
        (fun acc p =>
          if !p.2 && decide (p.1 ∉ acc) then acc ++ [p.1] else acc)
        st.admin_users) }

/-- `' '.join(context.args)`. -/
def joinSpace (args : List (List Char)) : List Char :=
  List.intercalate [' '] args

/-- `.strip()` (ASCII-space model; other whitespace kinds do not occur in
the claims). -/
def stripSpaces (s : List Char) : List Char :=
  ((s.dropWhile (fun c => c = ' ')).reverse.dropWhile (fun c => c = ' ')).reverse

/-- `SpoilerBot.add_keyword_command` (state effect). -/
def add_keyword_command (st : BotState) (caller chat_id : Int)
    (args : List (List Char)) : BotState :=
  if !is_admin st caller then st
  else if args = [] then st
  else
    let keyword := stripSpaces (joinSpace args)
    if keyword = [] then st
    else add_chat_keyword st chat_id keyword

/-- `SpoilerBot.remove_keyword_command` (state effect). -/
def remove_keyword_command (st : BotState) (caller chat_id : Int)
    (args : List (List Char)) : BotState :=
  if !is_admin st caller then st
  else if args = [] then st
  else (remove_chat_keyword st chat_id (stripSpaces (joinSpace args))).1

/-- `SpoilerBot.enable_chat_command` (state effect). -/
def enable_chat_command (st : BotState) (caller chat_id : Int) : BotState :=
  if !is_admin st caller then st
  else { st with enabled_chats := setInsert st.enabled_chats chat_id }

/-- `SpoilerBot.disable_chat_command` (state effect). -/
def disable_chat_command (st : BotState) (caller chat_id : Int) : BotState :=
  if !is_admin st caller then st
  else { st with enabled_chats := setRemove st.enabled_chats chat_id }

/-- The flag flip and lower-casing normalization pass of
`SpoilerBot.toggle_case_command`. -/
def toggle_case (st : BotState) : BotState :=
  let st1 := { st with case_sensitive := !st.case_sensitive }
  if !st1.case_sensitive then
    { st1 with spoiler_keywords :=
        st1.spoiler_keywords.map (fun e => (e.1, (e.2.map lowerStr).dedup)) }
  else st1

/-- `SpoilerBot.toggle_case_command` (state effect). -/
def toggle_case_command (st : BotState) (caller : Int) : BotState :=
  if !is_admin st caller then st else toggle_case st

/-- `SpoilerBot.sync_admins_command` (state effect). -/
def sync_admins_command (st : BotState) (caller : Int)
    (chat_admins : List (Int × Bool)) : BotState :=
  if !is_admin st caller then st else sync_group_admins st chat_admins

/-- `SpoilerBot.handle_my_chat_member` (state effect): sync when the bot
was just promoted to chat administrator. -/
def handle_my_chat_member (st : BotState) (new_status : List Char)
    (chat_admins : List (Int × Bool)) : BotState :=
  if new_status = ('a' :: 'd' :: 'm' :: 'i' :: 'n' :: 'i' :: 's' :: 't' ::
      'r' :: 'a' :: 't' :: 'o' :: 'r' :: []) then
    sync_group_admins st chat_admins
  else st

/-- Every operation the running bot dispatches on an inbound event:
the registered command handlers, the membership-change handler and the
plain-text message handler (`setup_handlers`). -/
inductive Op where
  | startCmd
  | helpCmd
  | addKeyword (caller chat_id : Int) (args : List (List Char))
  | removeKeyword (caller chat_id : Int) (args : List (List Char))
  | listKeywords (chat_id : Int)
  | listAllKeywords (caller : Int)
  | enableChat (caller chat_id : Int)
  | disableChat (caller chat_id : Int)
  | toggleCase (caller : Int)
  | addAdmin (caller : Int) (args : List (List Char))
  | syncAdmins (caller : Int) (chat_admins : List (Int × Bool))
  | chatMember (new_status : List Char) (chat_admins : List (Int × Bool))
  | message (chat_id : Int) (text : List Char)

/-- The state effect of dispatching one operation.  `start`, `help` and the
two listing commands only reply; `handle_message` never mutates the
configuration. -/
def applyOp (op : Op) (st : BotState) : BotState :=
  match op with
  | .startCmd => st
  | .helpCmd => st
  | .addKeyword caller chat args => add_keyword_command st caller chat args
  | .removeKeyword caller chat args => remove_keyword_command st caller chat args
  | .listKeywords _ => st
  | .listAllKeywords _ => st
  | .enableChat caller chat => enable_chat_command st caller chat
  | .disableChat caller chat => disable_chat_command st caller chat
  | .toggleCase caller => toggle_case_command st caller
  | .addAdmin caller args => (add_admin_command st caller args).1
  | .syncAdmins caller admins => sync_admins_command st caller admins
  | .chatMember status admins => handle_my_chat_member st status admins
  | .message _ _ => st

/-- JSON values, as produced by `json.load` / consumed by `json.dump`
(numbers restricted to integers: every number the bot writes or reads as
data is a chat id or user id). -/
inductive JVal where
  | jnull
  | jbool (b : Bool)
  | jint (n : Int)
  | jstr (s : List Char)
  | jarr (elems : List JVal)
  | jobj (fields : List (List Char × JVal))

/-- `config.get(key, dflt)` on a parsed JSON object. -/
def jgetF : List (List Char × JVal) → List Char → JVal → JVal
  | [], _, dflt => dflt
  | (k, v) :: rest, key, dflt => if k = key then v else jgetF rest key dflt

/-- Python truthiness of a JSON value, as applied to the loaded
`case_sensitive` field. -/
def truthy : JVal → Bool
  | .jnull => false
  | .jbool b => b
  | .jint n => decide (n ≠ 0)
  | .jstr [] => false
  | .jstr (_ :: _) => true
  | .jarr [] => false
  | .jarr (_ :: _) => true
  | .jobj [] => false
  | .jobj (_ :: _) => true

/-- `set(v)` for one chat's keyword value, typed at keyword sets: a list of
strings succeeds, a string yields its characters as one-character keywords,
a dict yields its keys, and the non-iterable values (`null`, booleans,
numbers) raise `TypeError`.  (A list holding hashable non-strings loads in
Python as non-string keywords which every later use rejects; the typed
embedding folds that case into the failure case.) -/
def parseKwStrs : List JVal → Option (List (List Char))
  | [] => some []
  | .jstr s :: rest => (parseKwStrs rest).map (fun r => s :: r)
  | _ :: _ => none

def parseKwList : JVal → Option (List (List Char))
  | .jarr es => parseKwStrs es
  | .jstr s => some (s.map (fun c => [c]))
  | .jobj fs => some (fs.map (fun f => f.1))
  | _ => none

/-- The dict comprehension
`{int(chat_id): set(keywords) for chat_id, keywords in keywords_data.items()}`:
all-or-nothing, raising on a non-numeric key or an invalid value. -/
def parseKwEntries : List (List Char × JVal) →
    Option (List (Int × List (List Char)))
  | [] => some []
  | (k, v) :: rest =>
    match parseInt k, parseKwList v, parseKwEntries rest with
    | some c, some kws, some r => some ((c, kws) :: r)
    | _, _, _ => none

/-- The `spoiler_keywords` stage of `load_config`: a JSON array is the
legacy global format, migrated to an empty per-chat mapping; an object is
parsed by the comprehension; anything else raises at `.items()`. -/
def parseKeywordsField : JVal → Option (List (Int × List (List Char)))
  | .jarr _ => some []
  | .jobj fields => parseKwEntries fields
  | _ => none

/-- `set(v)` for the `admin_users` / `enabled_chats` fields, typed at id
sets: a list of integers succeeds; the non-iterable values raise
`TypeError`.  (Lists holding hashable non-integers load in Python as ids of
the wrong type that never compare equal to any real id; the typed embedding
folds them into the failure case.) -/
def parseIntList : JVal → Option (List Int)
  | .jarr es =>
    es.foldr
      (fun e acc =>
        match e, acc with
        | .jint n, some r => some (n :: r)
        | _, _ => none)
      (some [])
  | _ => none

/-- The string keys for the four fields of the persisted schema. -/
def keySpoilerKeywords : List Char :=
  's' :: 'p' :: 'o' :: 'i' :: 'l' :: 'e' :: 'r' :: '_' :: 'k' :: 'e' :: 'y' ::
  'w' :: 'o' :: 'r' :: 'd' :: 's' :: []

def keyCaseSensitive : List Char :=
  'c' :: 'a' :: 's' :: 'e' :: '_' :: 's' :: 'e' :: 'n' :: 's' :: 'i' :: 't' ::
  'i' :: 'v' :: 'e' :: []

def keyAdminUsers : List Char :=
  'a' :: 'd' :: 'm' :: 'i' :: 'n' :: '_' :: 'u' :: 's' :: 'e' :: 'r' :: 's' :: []

def keyEnabledChats : List Char :=
  'e' :: 'n' :: 'a' :: 'b' :: 'l' :: 'e' :: 'd' :: '_' :: 'c' :: 'h' :: 'a' ::
  't' :: 's' :: []

/-- `SpoilerBot.load_config` on an existing configuration file.  The input
is `none` when reading or `json.load` raises, `some v` when the file parses
to the JSON value `v`.  The `try` body assigns the four fields in source
order; an exception stops at the point it is raised (it is caught and only
logged), so each field keeps its `__init__` default unless its assignment
was reached — `load_config` runs only from the freshly-initialised default
state. -/
def load_config (raw : Option JVal) : BotState :=
  match raw with
  | none => defaultState
  | some (.jobj fields) =>
    match parseKeywordsField (jgetF fields keySpoilerKeywords (.jobj [])) with
    | none => defaultState
    | some kws =>
      let st1 := { defaultState with spoiler_keywords := kws }
      let st2 := { st1 with
        case_sensitive := truthy (jgetF fields keyCaseSensitive (.jbool false)) }
      match parseIntList (jgetF fields keyAdminUsers (.jarr [])) with
      | none => st2
      | some admins =>
        let st3 := { st2 with admin_users := admins }
        match parseIntList (jgetF fields keyEnabledChats (.jarr [])) with
        | none => st3
        | some enabled => { st3 with enabled_chats := enabled }
  | some _ => defaultState

/-- The digit characters of `str(n)` (explicit table). -/
def digitChar (d : Nat) : Char :=
  if d = 0 then '0' else if d = 1 then '1' else if d = 2 then '2'
  else if d = 3 then '3' else if d = 4 then '4' else if d = 5 then '5'
  else if d = 6 then '6' else if d = 7 then '7' else if d = 8 then '8'
  else if d = 9 then '9' else '*'

/-- Decimal rendering of a natural number, least-significant digit pushed
onto `acc` first (fuelled structural recursion; `natToChars` supplies
adequate fuel). -/
def natToCharsCore : Nat → Nat → List Char → List Char
  | 0, _, acc => acc
  | fuel + 1, n, acc =>
    if n < 10 then digitChar n :: acc
    else natToCharsCore fuel (n / 10) (digitChar (n % 10) :: acc)

def natToChars (n : Nat) : List Char := natToCharsCore (n + 1) n []

/-- Python `str(i)` for an integer. -/
def intToChars (i : Int) : List Char :=
  if i < 0 then '-' :: natToChars i.natAbs else natToChars i.natAbs

/-- The four fields of the object `SpoilerBot.save_config` serializes —
`{str(chat_id): list(keywords)}` per chat, the flag, and the two id sets as
lists. -/
def saveFields (st : BotState) : List (List Char × JVal) :=
  [(keySpoilerKeywords,
    .jobj (st.spoiler_keywords.map
      (fun e => (intToChars e.1, .jarr (e.2.map (fun kw => .jstr kw)))))),
   (keyCaseSensitive, .jbool st.case_sensitive),
   (keyAdminUsers, .jarr (st.admin_users.map (fun u => .jint u))),
   (keyEnabledChats, .jarr (st.enabled_chats.map (fun c => .jint c)))]

/-- `SpoilerBot.save_config`: the JSON object written to the file. -/
def save_config (st : BotState) : JVal :=
  .jobj (saveFields st)

/-- The loads on which the `try` body of `load_config` raises before its
first field assignment: an unreadable or unparsable file, a non-object
top-level value, or a failing `spoiler_keywords` stage. -/
def keywordStageFails : Option JVal → Bool
  | none => true
  | some (.jobj fields) =>
    (parseKeywordsField (jgetF fields keySpoilerKeywords (.jobj []))).isNone
  | some _ => true

/-- A configuration file whose keyword mapping parses but whose
`admin_users` field is the non-iterable number `5` (`set(5)` raises
`TypeError` after `spoiler_keywords` and `case_sensitive` were already
assigned). -/
def badCfgC6Fields : List (List Char × JVal) :=
  [(keySpoilerKeywords, .jobj [(['1'], .jarr [.jstr ['a']])]),
   (keyCaseSensitive, .jbool true),
   (keyAdminUsers, .jint 5)]

def badCfgC6 : JVal := .jobj badCfgC6Fields

/-- Shorthand for writing message texts and keywords. -/
def str (s : String) : List Char := s.toList

/-- Chat 100 enabled with keyword `"leak"`, case-insensitive: the end-to-end
scenario state. -/
def stC2 : BotState :=
  { spoiler_keywords := [(100, [str "leak"])], case_sensitive := false
    admin_users := [], enabled_chats := [100] }

/-- Chat 1 configured with the punctuation keyword `"!"`. -/
def stC4 : BotState :=
  { spoiler_keywords := [(1, [str "!"])], case_sensitive := false
    admin_users := [], enabled_chats := [] }

/-- Chat 1 configured with keyword `"end"`, chat 2 with `"endgame"`. -/
def stC5 : BotState :=
  { spoiler_keywords := [(1, [str "end"]), (2, [str "endgame"])]
    case_sensitive := false, admin_users := [], enabled_chats := [] }

/-- The empty-set pruning invariant: no chat is mapped to an empty keyword
set. -/
def kwInvariant (st : BotState) : Prop :=
  ∀ e ∈ st.spoiler_keywords, e.2 ≠ []

/-! ## Helper lemmas -/

theorem lowerChar_spec (c : Char) :
    lowerChar c = c ∨ (c, lowerChar c) ∈ lowerPairs := by
  unfold lowerChar
  cases hf : lowerPairs.find? (fun p => p.1 == c) with
  | none => exact Or.inl rfl
  | some p =>
    have hmem : p ∈ lowerPairs := List.mem_of_find?_eq_some hf
    have hb := List.find?_some hf
    have hpc : p.1 = c := by exact eq_of_beq hb
    right
    rw [← hpc]
    exact hmem

theorem isWordChar_lowerChar (c : Char) :
    isWordChar (lowerChar c) = isWordChar c := by
  rcases lowerChar_spec c with h | h
  · rw [h]
  · simp only [lowerPairs, List.mem_cons, List.not_mem_nil, or_false,
      Prod.mk.injEq] at h
    rcases h with h | h | h | h | h | h | h | h | h | h | h | h | h | h | h |
      h | h | h | h | h | h | h | h | h | h | h <;> (rw [h.2, h.1]; rfl)

theorem lowerChar_idem (c : Char) : lowerChar (lowerChar c) = lowerChar c := by
  rcases lowerChar_spec c with h | h
  · rw [h]
    exact h
  · simp only [lowerPairs, List.mem_cons, List.not_mem_nil, or_false,
      Prod.mk.injEq] at h
    rcases h with h | h | h | h | h | h | h | h | h | h | h | h | h | h | h |
      h | h | h | h | h | h | h | h | h | h | h <;> (rw [h.2]; rfl)

theorem foldC_wordChar {ci : Bool} {a b : Char}
    (h : foldC ci a = foldC ci b) (hb : isWordChar b = true) :
    isWordChar a = true := by
  cases ci with
  | false =>
    simp only [foldC, Bool.false_eq_true, if_false] at h
    rw [h]
    exact hb
  | true =>
    simp only [foldC, if_true] at h
    calc isWordChar a = isWordChar (lowerChar a) := (isWordChar_lowerChar a).symm
    _ = isWordChar (lowerChar b) := by rw [h]
    _ = isWordChar b := isWordChar_lowerChar b
    _ = true := hb

theorem getD_map_total (f : Char → Char) (l : List Char) (j : Nat) (d : Char) :
    (l.map f).getD j (f d) = f (l.getD j d) := by
  induction l generalizing j with
  | nil => simp
  | cons c rest ih =>
    cases j with
    | zero => simp
    | succ k => simpa using ih k

theorem getD_take (l : List Char) (n j : Nat) (d : Char) (h : j < n) :
    (l.take n).getD j d = l.getD j d := by
  induction l generalizing n j with
  | nil => simp
  | cons c rest ih =>
    cases n with
    | zero => omega
    | succ m =>
      cases j with
      | zero => simp
      | succ k => simpa using ih m k (by omega)

theorem getD_drop (l : List Char) (i j : Nat) (d : Char) :
    (l.drop i).getD j d = l.getD (i + j) d := by
  induction l generalizing i with
  | nil => simp
  | cons c rest ih =>
    cases i with
    | zero => simp
    | succ m =>
      have : m + 1 + j = m + j + 1 := by omega
      simpa [this] using ih m

theorem getD_mem (l : List Char) (j : Nat) (d : Char) (h : j < l.length) :
    l.getD j d ∈ l := by
  induction l generalizing j with
  | nil => simp at h
  | cons c rest ih =>
    cases j with
    | zero => simp
    | succ k =>
      simp only [List.getD_cons_succ]
      exact List.mem_cons_of_mem c (ih k (by simpa using h))

theorem getD_oor (l : List Char) (j : Nat) (d : Char) (h : l.length ≤ j) :
    l.getD j d = d := by
  induction l generalizing j with
  | nil => simp
  | cons c rest ih =>
    cases j with
    | zero => simp at h
    | succ k => simpa using ih k (by simpa using h)

theorem wordAt_lowerStr (t : List Char) (i : Nat) :
    wordAt (lowerStr t) i = wordAt t i := by
  unfold wordAt lowerStr
  calc isWordChar ((t.map lowerChar).getD i ' ')
      = isWordChar ((t.map lowerChar).getD i (lowerChar ' ')) := rfl
    _ = isWordChar (lowerChar (t.getD i ' ')) := by rw [getD_map_total]
    _ = isWordChar (t.getD i ' ') := isWordChar_lowerChar _

theorem boundaryAt_lowerStr (t : List Char) (i : Nat) :
    boundaryAt (lowerStr t) i = boundaryAt t i := by
  unfold boundaryAt
  rw [wordAt_lowerStr, wordAt_lowerStr]

/-- What a successful literal match means, position by position. -/
theorem literalAt_spec {ci : Bool} {t kw : List Char} {i : Nat}
    (hkw : kw ≠ []) (h : literalAt ci t kw i = true) :
    i + kw.length ≤ t.length ∧
      ∀ j < kw.length, foldC ci (t.getD (i + j) ' ') = foldC ci (kw.getD j ' ') := by
  unfold literalAt at h
  have heq : ((t.drop i).take kw.length).map (foldC ci) = kw.map (foldC ci) :=
    eq_of_beq h
  have hlen : ((t.drop i).take kw.length).length = kw.length := by
    have := congrArg List.length heq
    simpa using this
  have hpos : 0 < kw.length := List.length_pos.mpr hkw
  have hle : i + kw.length ≤ t.length := by
    simp only [List.length_take, List.length_drop] at hlen
    omega
  refine ⟨hle, fun j hj => ?_⟩
  have := congrArg (fun l => l.getD j (foldC ci ' ')) heq
  simp only at this
  rw [getD_map_total, getD_map_total] at this
  rwa [getD_take _ _ _ _ hj, getD_drop] at this

/-- A position beyond the end of the text never matches. -/
theorem wordMatchAt_oor {ci : Bool} {t kw : List Char} {j : Nat}
    (h : t.length < j) : wordMatchAt ci t kw j = false := by
  have h1 : wordAt t j = false := by
    unfold wordAt
    rw [getD_oor _ _ _ (by omega)]
    rfl
  have h2 : wordAt t (j - 1) = false := by
    unfold wordAt
    rw [getD_oor _ _ _ (by omega)]
    rfl
  unfold wordMatchAt boundaryAt
  rw [h1, h2]
  simp

/-- An unsuccessful `re.search` means no position matches. -/
theorem wordSearch_false_all {ci : Bool} {t kw : List Char}
    (h : wordSearch ci t kw = false) :
    ∀ j, wordMatchAt ci t kw j = false := by
  intro j
  by_cases hj : j < t.length + 1
  · unfold wordSearch at h
    rw [List.any_eq_false] at h
    exact Bool.eq_false_iff.mpr
      (fun habs => h j (List.mem_range.mpr hj) habs)
  · exact wordMatchAt_oor (by omega)

theorem drop_take_one (t : List Char) (i : Nat) (h : i < t.length) :
    (t.drop i).take 1 ++ t.drop (i + 1) = t.drop i := by
  induction t generalizing i with
  | nil => simp at h
  | cons c rest ih =>
    cases i with
    | zero => simp
    | succ m => simpa using ih m (by simpa using h)

/-- If no position of `t` matches, one substitution pass copies the text. -/
theorem subFrom_no_match {ci : Bool} {kw repl t : List Char}
    (h : ∀ j, wordMatchAt ci t kw j = false) :
    ∀ fuel i, subFrom ci kw repl t i fuel = t.drop i := by
  intro fuel
  induction fuel with
  | zero => intro i; rfl
  | succ f ih =>
    intro i
    unfold subFrom
    by_cases hi : i < t.length
    · rw [if_pos hi, h i, if_neg (by simp), ih (i + 1), drop_take_one t i hi]
    · rw [if_neg hi, h i, if_neg (by simp)]
      have : t.length ≤ i := Nat.le_of_not_lt hi
      rw [List.drop_eq_nil_of_le this]

theorem re_sub_word_no_match {ci : Bool} {kw repl t : List Char}
    (h : wordSearch ci t kw = false) : re_sub_word ci kw repl t = t := by
  unfold re_sub_word
  rw [subFrom_no_match (wordSearch_false_all h)]
  rfl

/-- When no configured keyword matches the text, `apply_spoiler_tags`
copies the text unchanged. -/
theorem apply_no_match (st : BotState) (text : List Char)
    (kws : List (List Char)) :
    (∀ kw ∈ kws, wordSearch (!st.case_sensitive) text kw = false) →
      apply_spoiler_tags st text kws = text := by
  induction kws with
  | nil => intro _; rfl
  | cons kw rest ih =>
    intro h
    unfold apply_spoiler_tags
    simp only [List.foldl_cons]
    rw [re_sub_word_no_match (h kw (List.mem_cons_self kw rest))]
    exact ih (fun k hk => h k (List.mem_cons_of_mem kw hk))

theorem boundaryAt_zero (t : List Char) : boundaryAt t 0 = wordAt t 0 := by
  unfold boundaryAt
  cases wordAt t 0 <;> rfl

/-- The pattern built from a keyword matches the keyword's own (possibly
lowered) text at position 0, provided the keyword starts and ends with a
word character. -/
theorem wordMatchAt_zero_of (ci : Bool) (t kw : List Char)
    (hw : ∀ i, wordAt t i = wordAt kw i)
    (hlit : literalAt ci t kw 0 = true)
    (hlen : t.length = kw.length)
    (h1 : kw ≠ []) (h2 : isWordChar (kw.getD 0 ' ') = true)
    (h3 : isWordChar (kw.getD (kw.length - 1) ' ') = true) :
    wordMatchAt ci t kw 0 = true := by
  have hpos : 0 < kw.length := List.length_pos.mpr h1
  unfold wordMatchAt
  rw [boundaryAt_zero, hw 0]
  have hw0 : wordAt kw 0 = true := h2
  rw [hw0, hlit]
  have hbL : boundaryAt t (0 + kw.length) = true := by
    unfold boundaryAt
    rw [hw (0 + kw.length - 1), hw (0 + kw.length)]
    have ha : wordAt kw (0 + kw.length - 1) = true := by
      unfold wordAt
      have : 0 + kw.length - 1 = kw.length - 1 := by omega
      rw [this]
      exact h3
    have hb : wordAt kw (0 + kw.length) = false := by
      unfold wordAt
      rw [getD_oor _ _ _ (by omega)]
      rfl
    rw [ha, hb]
    have hd : decide (0 < 0 + kw.length) = true := by
      simp only [decide_eq_true_eq]
      omega
    rw [hd]
    rfl
  rw [hbL]
  rfl

/-! ## The claims -/

/-- C1, counterexample: redaction is not idempotent.  With keyword
`"leak"`, one application of the rewriter yields `"||leak||"`, a second
application wraps the already-wrapped span again, yielding
`"||||leak||||"` (the word boundary `\b` holds between `|` and `l`). -/
theorem c1_counterexample :
    apply_spoiler_tags defaultState
        (apply_spoiler_tags defaultState (str "leak") [str "leak"])
        [str "leak"] ≠
      apply_spoiler_tags defaultState (str "leak") [str "leak"] := by decide

/-- C1, amended: idempotence is not guaranteed in general (re-application
can wrap an already-wrapped span again, see the counterexample), but it
does hold whenever no keyword of the list word-matches the text: then one
application leaves the text unchanged and hence a second application
equals the first. -/
theorem c1_idempotent_when_unmatched (st : BotState) (text : List Char)
    (kws : List (List Char))
    (h : ∀ kw ∈ kws, wordSearch (!st.case_sensitive) text kw = false) :
    apply_spoiler_tags st text kws = text ∧
      apply_spoiler_tags st (apply_spoiler_tags st text kws) kws =
        apply_spoiler_tags st text kws := by
  have h1 := apply_no_match st text kws h
  refine ⟨h1, ?_⟩
  rw [h1]
  exact h1

/-- Witness for C1 at a concrete input: keyword `"zz"` does not match
`"hi"`, so redaction is the identity there and idempotence holds. -/
theorem c1_idempotent_when_unmatched_witness :
    (∀ kw ∈ [str "zz"],
        wordSearch (!defaultState.case_sensitive) (str "hi") kw = false) ∧
      (apply_spoiler_tags defaultState (str "hi") [str "zz"] = str "hi" ∧
        apply_spoiler_tags defaultState
            (apply_spoiler_tags defaultState (str "hi") [str "zz"])
            [str "zz"] =
          apply_spoiler_tags defaultState (str "hi") [str "zz"]) :=
  ⟨by decide,
   c1_idempotent_when_unmatched defaultState (str "hi") [str "zz"] (by decide)⟩

/-- C2, counterexample: the pipeline does NOT preserve the matched
occurrence's original casing.  With chat 100 enabled, keyword `"leak"`
configured and case-insensitivity on, the message `"no LEAK here"` from
`U` is republished as `"U: no ||leak|| here"` (the replacement string is
built from the stored keyword), not `"U: no ||LEAK|| here"`. -/
theorem c2_counterexample :
    handle_message stC2 100 (str "no LEAK here") (str "U") 7 true true ≠
      PipelineResult.succeeded (str "U: no ||LEAK|| here") 7 := by decide

/-- C2, amended: with chat 100 enabled, keyword `"leak"` configured and
case-insensitivity on, an incoming `"no LEAK here"` from `U` is detected,
the original is deleted and the redacted text — `"U: no ||leak|| here"`,
the matched occurrence replaced by the stored (lower-cased) keyword
wrapped in `||…||`, sender identity prefixed — is posted to the same
thread, ending in `SUCCEEDED` when both transport calls succeed. -/
theorem c2_pipeline_end_to_end (thread : Nat) :
    handle_message stC2 100 (str "no LEAK here") (str "U") thread true true =
      PipelineResult.succeeded (str "U: no ||leak|| here") thread := rfl

/-- C3: matching consults only the chat's own keyword set — a keyword
absent from chat B's set (for instance one configured only in a different
chat A) is never reported when matching any text in chat B. -/
theorem c3_chat_isolation (st : BotState) (text : List Char) (A B : Int)
    (kw : List Char) (hab : A ≠ B) (hA : kw ∈ get_chat_keywords st A)
    (hB : kw ∉ get_chat_keywords st B) :
    kw ∉ contains_spoiler_keywords st text B := by
  intro hmem
  simp only [contains_spoiler_keywords] at hmem
  by_cases hk : get_chat_keywords st B = []
  · rw [if_pos hk] at hmem
    simp at hmem
  · rw [if_neg hk] at hmem
    exact hB (List.mem_filter.mp hmem).1

/-- Witness for C3: `"leak"` is configured only in chat 1; matching the
text `"leak"` in chat 2 does not report it. -/
theorem c3_chat_isolation_witness :
    str "leak" ∉
      contains_spoiler_keywords
        { spoiler_keywords := [(1, [str "leak"])], case_sensitive := false
          admin_users := [], enabled_chats := [] }
        (str "leak") 2 :=
  c3_chat_isolation _ _ 1 2 _ (by decide) (by decide) (by decide)

/-- C4, counterexample: a keyword need not match its own literal text.
The keyword `"!"` is configured for chat 1, yet matching the text `"!"`
reports nothing: the pattern `\b\!\b` requires a word character adjacent
to each boundary and `!` is not a word character. -/
theorem c4_counterexample :
    str "!" ∈ get_chat_keywords stC4 1 ∧
      str "!" ∉ contains_spoiler_keywords stC4 (str "!") 1 := by decide

/-- C4, amended: literal self-match holds for every keyword whose first
and last characters are word characters (letters, digits, underscore) —
`re.escape` prevents any pattern-syntax interpretation of the keyword, and
the surrounding `\b` assertions hold at the ends of such a keyword.
Keywords with a non-word first or last character fail the boundary test
against their own text (see the counterexample). -/
theorem c4_literal_self_match (st : BotState) (chat_id : Int) (kw : List Char)
    (h1 : kw ≠ []) (h2 : isWordChar (kw.getD 0 ' ') = true)
    (h3 : isWordChar (kw.getD (kw.length - 1) ' ') = true)
    (h4 : kw ∈ get_chat_keywords st chat_id) :
    kw ∈ contains_spoiler_keywords st kw chat_id := by
  have hne : get_chat_keywords st chat_id ≠ [] := List.ne_nil_of_mem h4
  simp only [contains_spoiler_keywords]
  rw [if_neg hne]
  apply List.mem_filter.mpr
  refine ⟨h4, ?_⟩
  cases hcs : st.case_sensitive with
  | true =>
    rw [if_pos rfl]
    apply List.any_eq_true.mpr
    refine ⟨0, List.mem_range.mpr (Nat.succ_pos _), ?_⟩
    apply wordMatchAt_zero_of false kw kw (fun _ => rfl) ?_ rfl h1 h2 h3
    unfold literalAt
    rw [List.drop_zero, List.take_length]
    exact beq_self_eq_true _
  | false =>
    rw [if_neg (by simp)]
    apply List.any_eq_true.mpr
    refine ⟨0, List.mem_range.mpr (Nat.succ_pos _), ?_⟩
    apply wordMatchAt_zero_of true (lowerStr kw) kw (wordAt_lowerStr kw) ?_
      (by simp [lowerStr]) h1 h2 h3
    unfold literalAt
    rw [List.drop_zero]
    have hlen : kw.length = (lowerStr kw).length := by simp [lowerStr]
    rw [hlen, List.take_length]
    apply beq_iff_eq.mpr
    unfold lowerStr
    have hf : ∀ c : Char, foldC true c = lowerChar c := fun _ => rfl
    rw [List.map_map]
    apply List.map_congr_left
    intro a _
    simp only [Function.comp_apply, hf]
    exact lowerChar_idem a

/-- Witness for C4: the word keyword `"leak"` matches its own text. -/
theorem c4_literal_self_match_witness :
    str "leak" ∈
      contains_spoiler_keywords
        { spoiler_keywords := [(5, [str "leak"])], case_sensitive := false
          admin_users := [], enabled_chats := [] }
        (str "leak") 5 :=
  c4_literal_self_match _ 5 (str "leak") (by decide) (by decide) (by decide)
    (by decide)

/-- C5: whole-word matching.  A matched occurrence of a keyword made of
word characters is flanked by non-word characters (or the text's ends), so
a keyword never matches as a proper substring of a larger word; in
particular keyword `"end"` finds nothing in `"endgame"`, while keyword
`"endgame"` is found in `"I loved the endgame battle"`. -/
theorem c5_whole_word :
    (∀ (ci : Bool) (t kw : List Char) (i : Nat), kw ≠ [] →
        (∀ c ∈ kw, isWordChar c = true) → wordMatchAt ci t kw i = true →
        (i = 0 ∨ wordAt t (i - 1) = false) ∧ wordAt t (i + kw.length) = false) ∧
      contains_spoiler_keywords stC5 (str "endgame") 1 = [] ∧
      str "endgame" ∈
        contains_spoiler_keywords stC5 (str "I loved the endgame battle") 2 := by
  refine ⟨?_, by decide, by decide⟩
  intro ci t kw i h1 hall hm
  simp only [wordMatchAt, Bool.and_eq_true] at hm
  obtain ⟨⟨hb0, hlit⟩, hbL⟩ := hm
  obtain ⟨hle, hpt⟩ := literalAt_spec h1 hlit
  have hpos : 0 < kw.length := List.length_pos.mpr h1
  have hkw0 : isWordChar (kw.getD 0 ' ') = true :=
    hall _ (getD_mem kw 0 ' ' hpos)
  have hw_i : wordAt t i = true := by
    unfold wordAt
    exact foldC_wordChar (by simpa using hpt 0 hpos) hkw0
  have h_start : i = 0 ∨ wordAt t (i - 1) = false := by
    unfold boundaryAt at hb0
    rw [hw_i] at hb0
    have hfalse : (decide (0 < i) && wordAt t (i - 1)) = false := by
      cases hx : (decide (0 < i) && wordAt t (i - 1)) with
      | false => rfl
      | true => rw [hx] at hb0; exact absurd hb0 (by decide)
    rcases Bool.and_eq_false_iff.mp hfalse with h | h
    · left
      have := of_decide_eq_false h
      omega
    · right
      exact h
  have hkwl : isWordChar (kw.getD (kw.length - 1) ' ') = true :=
    hall _ (getD_mem kw _ ' ' (by omega))
  have hw_last : wordAt t (i + kw.length - 1) = true := by
    unfold wordAt
    have heq : i + kw.length - 1 = i + (kw.length - 1) := by omega
    rw [heq]
    exact foldC_wordChar (hpt (kw.length - 1) (by omega)) hkwl
  have h_end : wordAt t (i + kw.length) = false := by
    unfold boundaryAt at hbL
    have hd : decide (0 < i + kw.length) = true := by
      simp only [decide_eq_true_eq]
      omega
    rw [hd, hw_last] at hbL
    simpa using hbL
  exact ⟨h_start, h_end⟩

/-- Witness for C5: the general flank property applied to keyword `"end"`
matched at position 0 of `"end game"`. -/
theorem c5_whole_word_witness :
    ((str "end" : List Char) ≠ [] ∧
        (∀ c ∈ str "end", isWordChar c = true) ∧
        wordMatchAt true (str "end game") (str "end") 0 = true) ∧
      ((0 = 0 ∨ wordAt (str "end game") (0 - 1) = false) ∧
        wordAt (str "end game") (0 + (str "end").length) = false) :=
  ⟨⟨by decide, by decide, by decide⟩,
   c5_whole_word.1 true (str "end game") (str "end") 0 (by decide) (by decide)
     (by decide)⟩

/-! ## Set and map helper lemmas -/

theorem mem_setInsert_self {α : Type} [DecidableEq α] (xs : List α) (x : α) :
    x ∈ setInsert xs x := by
  unfold setInsert
  split_ifs with h
  · exact h
  · exact List.mem_append_right xs (List.mem_singleton.mpr rfl)

theorem mem_setInsert_of_mem {α : Type} [DecidableEq α] {xs : List α} {y : α}
    (x : α) (h : y ∈ xs) : y ∈ setInsert xs x := by
  unfold setInsert
  split_ifs
  · exact h
  · exact List.mem_append_left _ h

theorem setInsert_ne_nil {α : Type} [DecidableEq α] (xs : List α) (x : α) :
    setInsert xs x ≠ [] := by
  unfold setInsert
  split_ifs with h
  · exact List.ne_nil_of_mem h
  · simp

theorem setEntry_mem {m : List (Int × List (List Char))} {k : Int}
    {v : List (List Char)} {e : Int × List (List Char)}
    (h : e ∈ setEntry m k v) : e ∈ m ∨ e = (k, v) := by
  induction m with
  | nil => simpa [setEntry] using h
  | cons p rest ih =>
    unfold setEntry at h
    split_ifs at h with hk
    · rcases List.mem_cons.mp h with h1 | h1
      · right
        rw [h1, hk]
      · left
        exact List.mem_cons_of_mem p h1
    · rcases List.mem_cons.mp h with h1 | h1
      · left
        exact List.mem_cons.mpr (Or.inl h1)
      · rcases ih h1 with h2 | h2
        · left
          exact List.mem_cons_of_mem p h2
        · right
          exact h2

theorem removeEntry_mem {m : List (Int × List (List Char))} {k : Int}
    {e : Int × List (List Char)} (h : e ∈ removeEntry m k) : e ∈ m := by
  induction m with
  | nil => simpa [removeEntry] using h
  | cons p rest ih =>
    unfold removeEntry at h
    split_ifs at h with hk
    · exact List.mem_cons_of_mem p (ih h)
    · rcases List.mem_cons.mp h with h1 | h1
      · exact List.mem_cons.mpr (Or.inl h1)
      · exact List.mem_cons_of_mem p (ih h1)

theorem lookupEntry_removeEntry (m : List (Int × List (List Char))) (k : Int) :
    lookupEntry (removeEntry m k) k = none := by
  induction m with
  | nil => rfl
  | cons p rest ih =>
    unfold removeEntry
    split_ifs with hk
    · exact ih
    · unfold lookupEntry
      rw [if_neg hk]
      exact ih

theorem remove_chat_keyword_admins (st : BotState) (chat_id : Int)
    (kw : List Char) :
    (remove_chat_keyword st chat_id kw).1.admin_users = st.admin_users := by
  unfold remove_chat_keyword
  cases lookupEntry st.spoiler_keywords chat_id with
  | none => rfl
  | some cur =>
    simp only []
    split_ifs <;> rfl

theorem foldl_sync_mono (la : List (Int × Bool)) (acc : List Int) (u : Int)
    (h : u ∈ acc) :
    u ∈ la.foldl
        (fun acc p =>
          if !p.2 && decide (p.1 ∉ acc) then acc ++ [p.1] else acc)
        acc := by
  induction la generalizing acc with
  | nil => exact h
  | cons p rest ih =>
    simp only [List.foldl_cons]
    apply ih
    split
    · exact List.mem_append_left _ h
    · exact h

theorem sync_group_admins_mono (st : BotState) (la : List (Int × Bool))
    (u : Int) (h : u ∈ st.admin_users) :
    u ∈ (sync_group_admins st la).admin_users := by
  unfold sync_group_admins
  exact foldl_sync_mono la st.admin_users u h

/-- C6, counterexample: a load failure need not leave empty defaults.  On
`badCfgC6` the `admin_users` stage raises (the field is the non-iterable
number `5`), yet the keyword mapping and the case flag were already
assigned from the file — the final state is a mixture of file data and
defaults, not the empty-default state. -/
theorem c6_counterexample :
    parseIntList (jgetF badCfgC6Fields keyAdminUsers (.jarr [])) = none ∧
      load_config (some badCfgC6) ≠ defaultState ∧
      (load_config (some badCfgC6)).spoiler_keywords = [(1, [['a']])] ∧
      (load_config (some badCfgC6)).case_sensitive = true ∧
      (load_config (some badCfgC6)).admin_users = [] := by decide

/-- C6, amended: a failure while reading the file, parsing the JSON, or
building the per-chat keyword mapping (malformed JSON, non-object
configuration, non-numeric chat-id keys, invalid keyword collections)
occurs before any field assignment, so load reports it and leaves the
store at the empty defaults.  A failure in a later field instead keeps the
fields already assigned from the file (see the counterexample), so the
empty-default guarantee holds exactly for the keyword-stage failures. -/
theorem c6_load_fail_soft (raw : Option JVal)
    (h : keywordStageFails raw = true) : load_config raw = defaultState := by
  cases raw with
  | none => rfl
  | some v =>
    cases v with
    | jobj fields =>
      simp only [keywordStageFails] at h
      rw [Option.isNone_iff_eq_none] at h
      simp only [load_config, h]
    | jnull => rfl
    | jbool b => rfl
    | jint n => rfl
    | jstr s => rfl
    | jarr es => rfl

/-- Witness for C6: a keyword mapping with the non-numeric chat-id key
`"x"` fails the keyword stage and load yields the empty defaults. -/
theorem c6_load_fail_soft_witness :
    load_config
        (some (.jobj [(keySpoilerKeywords, .jobj [(['x'], .jarr [])])])) =
      defaultState :=
  c6_load_fail_soft _ (by decide)

/-- C7: the bootstrap admin rule.  With an empty administrator set, an
`add_admin` request with a valid numeric id succeeds for any caller; with
a non-empty set, a non-administrator is rejected with the state unchanged,
while an administrator's request with a valid numeric id succeeds. -/
theorem c7_bootstrap_admin :
    (∀ (st : BotState) (caller : Int) (a : List Char)
        (rest : List (List Char)) (uid : Int),
        st.admin_users = [] → parseInt a = some uid →
        (add_admin_command st caller (a :: rest)).2 = ReplyKind.ok ∧
          uid ∈ (add_admin_command st caller (a :: rest)).1.admin_users) ∧
      (∀ (st : BotState) (caller : Int) (args : List (List Char)),
        st.admin_users ≠ [] → is_admin st caller = false →
        add_admin_command st caller args = (st, ReplyKind.permissionDenied)) ∧
      (∀ (st : BotState) (caller : Int) (a : List Char)
        (rest : List (List Char)) (uid : Int),
        is_admin st caller = true → parseInt a = some uid →
        (add_admin_command st caller (a :: rest)).2 = ReplyKind.ok ∧
          uid ∈ (add_admin_command st caller (a :: rest)).1.admin_users) := by
  refine ⟨?_, ?_, ?_⟩
  · intro st caller a rest uid hemp hp
    unfold add_admin_command
    rw [hemp]
    simp only [List.length_nil, Nat.lt_irrefl, decide_False, Bool.and_false,
      Bool.false_eq_true, if_false, hp]
    exact ⟨True.intro, mem_setInsert_self _ uid⟩
  · intro st caller args hne hcall
    unfold add_admin_command
    rw [hcall]
    have hd : decide (0 < st.admin_users.length) = true :=
      decide_eq_true (List.length_pos.mpr hne)
    rw [hd]
    rfl
  · intro st caller a rest uid hadm hp
    unfold add_admin_command
    rw [hadm]
    simp only [Bool.not_true, Bool.false_and, Bool.false_eq_true, if_false, hp]
    exact ⟨True.intro, mem_setInsert_self _ uid⟩

/-- Witness for C7: the first administrator self-registers from the empty
set; user `42` adds id `7` and `7` becomes an administrator. -/
theorem c7_bootstrap_admin_witness :
    (add_admin_command
          { spoiler_keywords := [], case_sensitive := false
            admin_users := [], enabled_chats := [] }
          42 [['7']]).2 = ReplyKind.ok ∧
      7 ∈ (add_admin_command
          { spoiler_keywords := [], case_sensitive := false
            admin_users := [], enabled_chats := [] }
          42 [['7']]).1.admin_users :=
  c7_bootstrap_admin.1 _ 42 ['7'] [] 7 rfl (by decide)

/-- C9: empty-set pruning.  Removing a chat's last keyword deletes the
chat's entry (so none would be persisted) and `get_chat_keywords` then
returns the empty set; and every keyword-map mutation (add, remove,
case-toggle normalization) preserves the invariant that no chat is mapped
to an empty keyword set. -/
theorem c9_empty_set_pruning :
    (∀ (st : BotState) (chat_id : Int) (kw : List Char),
        lookupEntry st.spoiler_keywords chat_id = some [processKw st kw] →
        (remove_chat_keyword st chat_id kw).2 = true ∧
          lookupEntry (remove_chat_keyword st chat_id kw).1.spoiler_keywords
              chat_id = none ∧
          get_chat_keywords (remove_chat_keyword st chat_id kw).1 chat_id = []) ∧
      (∀ (st : BotState) (chat_id : Int) (kw : List Char), kwInvariant st →
        kwInvariant (add_chat_keyword st chat_id kw) ∧
          kwInvariant (remove_chat_keyword st chat_id kw).1 ∧
          kwInvariant (toggle_case st)) := by
  constructor
  · intro st chat_id kw h
    have hrm : remove_chat_keyword st chat_id kw =
        ({ st with
            spoiler_keywords := removeEntry st.spoiler_keywords chat_id },
         true) := by
      unfold remove_chat_keyword
      rw [h]
      simp only [List.mem_singleton, if_pos rfl]
      have hsr : setRemove [processKw st kw] (processKw st kw) = [] := by
        simp [setRemove]
      rw [hsr]
      rfl
    rw [hrm]
    refine ⟨rfl, lookupEntry_removeEntry _ _, ?_⟩
    unfold get_chat_keywords
    rw [lookupEntry_removeEntry]
    rfl
  · intro st chat_id kw hinv
    refine ⟨?_, ?_, ?_⟩
    · intro e he
      unfold add_chat_keyword at he
      simp only [] at he
      rcases setEntry_mem he with h1 | h1
      · exact hinv e h1
      · rw [h1]
        exact setInsert_ne_nil _ _
    · unfold remove_chat_keyword
      cases hl : lookupEntry st.spoiler_keywords chat_id with
      | none => exact hinv
      | some cur =>
        simp only []
        split_ifs with hmem hnil
        · intro e he
          exact hinv e (removeEntry_mem he)
        · intro e he
          rcases setEntry_mem he with h1 | h1
          · exact hinv e h1
          · rw [h1]
            exact hnil
        · exact hinv
    · unfold toggle_case
      cases hcs : st.case_sensitive with
      | false =>
        simp only [hcs, Bool.not_false, Bool.not_true, Bool.false_eq_true,
          if_false]
        exact hinv
      | true =>
        simp only [hcs, Bool.not_true, Bool.not_false, if_true]
        intro e he
        rcases List.mem_map.mp he with ⟨e0, he0, hfe⟩
        rw [← hfe]
        simp only [ne_eq, List.dedup_eq_nil, List.map_eq_nil_iff]
        exact hinv e0 he0

/-- Witness for C9: chat 3 holds only `"x"`; removing it reports success,
deletes the entry, and `get_chat_keywords` returns the empty set; the
invariant-preservation half applied to the same state. -/
theorem c9_empty_set_pruning_witness :
    ((remove_chat_keyword
          { spoiler_keywords := [(3, [['x']])], case_sensitive := false
            admin_users := [], enabled_chats := [] }
          3 ['x']).2 = true ∧
        lookupEntry (remove_chat_keyword
            { spoiler_keywords := [(3, [['x']])], case_sensitive := false
              admin_users := [], enabled_chats := [] }
            3 ['x']).1.spoiler_keywords 3 = none ∧
        get_chat_keywords (remove_chat_keyword
            { spoiler_keywords := [(3, [['x']])], case_sensitive := false
              admin_users := [], enabled_chats := [] }
            3 ['x']).1 3 = []) ∧
      (kwInvariant (add_chat_keyword
          { spoiler_keywords := [(3, [['x']])], case_sensitive := false
            admin_users := [], enabled_chats := [] }
          3 ['x']) ∧
        kwInvariant (remove_chat_keyword
            { spoiler_keywords := [(3, [['x']])], case_sensitive := false
              admin_users := [], enabled_chats := [] }
            3 ['x']).1 ∧
        kwInvariant (toggle_case
          { spoiler_keywords := [(3, [['x']])], case_sensitive := false
            admin_users := [], enabled_chats := [] })) :=
  ⟨c9_empty_set_pruning.1 _ 3 ['x'] (by decide),
   c9_empty_set_pruning.2 _ 3 ['x']
     (by intro e he; simp only [List.mem_singleton] at he; rw [he]; simp)⟩

/-- C10: administrator-set monotonicity.  Every operation the bot
dispatches — each command handler, the admin sync, the membership-change
handler and plain message processing — can only grow the administrator
set; no operation removes an administrator and no removal command exists. -/
theorem c10_admin_monotonic (op : Op) (st : BotState) (u : Int)
    (h : u ∈ st.admin_users) : u ∈ (applyOp op st).admin_users := by
  cases op with
  | startCmd => exact h
  | helpCmd => exact h
  | addKeyword caller chat_id args =>
    simp only [applyOp, add_keyword_command]
    split_ifs <;> exact h
  | removeKeyword caller chat_id args =>
    simp only [applyOp, remove_keyword_command]
    split_ifs with h1 h2
    · exact h
    · exact h
    · rw [remove_chat_keyword_admins]
      exact h
  | listKeywords _ => exact h
  | listAllKeywords _ => exact h
  | enableChat caller chat_id =>
    simp only [applyOp, enable_chat_command]
    split_ifs <;> exact h
  | disableChat caller chat_id =>
    simp only [applyOp, disable_chat_command]
    split_ifs <;> exact h
  | toggleCase caller =>
    simp only [applyOp, toggle_case_command, toggle_case]
    split_ifs <;> exact h
  | addAdmin caller args =>
    simp only [applyOp]
    unfold add_admin_command
    split_ifs with hg
    · exact h
    · cases args with
      | nil => exact h
      | cons a rest =>
        cases hp : parseInt a with
        | none =>
          simp only [hp]
          exact h
        | some uid =>
          simp only [hp]
          exact mem_setInsert_of_mem uid h
  | syncAdmins caller la =>
    simp only [applyOp, sync_admins_command]
    split_ifs
    · exact h
    · exact sync_group_admins_mono st la u h
  | chatMember status la =>
    simp only [applyOp, handle_my_chat_member]
    split_ifs
    · exact sync_group_admins_mono st la u h
    · exact h
  | message _ _ => exact h

/-- Witness for C10: administrator `5` survives an `add_admin` of `9`. -/
theorem c10_admin_monotonic_witness :
    5 ∈ (applyOp (Op.addAdmin 5 [['9']])
        { spoiler_keywords := [], case_sensitive := false
          admin_users := [5], enabled_chats := [] }).admin_users :=
  c10_admin_monotonic (Op.addAdmin 5 [['9']]) _ 5 (by decide)

/-! ## Decimal round-trip: `int(str(n)) == n` -/

theorem charToDigit_digitChar : ∀ d, d < 10 →
    charToDigit (digitChar d) = some d := by decide

theorem digitChar_not_sign : ∀ d, d < 10 →
    digitChar d ≠ '-' ∧ digitChar d ≠ '+' := by decide

theorem natToCharsCore_chars : ∀ (fuel n : Nat) (acc : List Char),
    (∀ c ∈ acc, ∃ d, d < 10 ∧ c = digitChar d) →
    ∀ c ∈ natToCharsCore fuel n acc, ∃ d, d < 10 ∧ c = digitChar d := by
  intro fuel
  induction fuel with
  | zero =>
    intro n acc hacc c hc
    exact hacc c hc
  | succ f ih =>
    intro n acc hacc c hc
    unfold natToCharsCore at hc
    split_ifs at hc with h10
    · rcases List.mem_cons.mp hc with h | h
      · exact ⟨n, h10, h⟩
      · exact hacc c h
    · refine ih (n / 10) _ ?_ c hc
      intro x hx
      rcases List.mem_cons.mp hx with h | h
      · exact ⟨n % 10, Nat.mod_lt n (by norm_num), h⟩
      · exact hacc x h

theorem natToCharsCore_ne_nil : ∀ (fuel n : Nat) (acc : List Char),
    (acc ≠ [] ∨ fuel ≠ 0) → natToCharsCore fuel n acc ≠ [] := by
  intro fuel
  induction fuel with
  | zero =>
    intro n acc hd
    rcases hd with h | h
    · exact h
    · exact absurd rfl h
  | succ f ih =>
    intro n acc hd
    unfold natToCharsCore
    split_ifs with h10
    · simp
    · exact ih (n / 10) _ (Or.inl (by simp))

theorem core_round : ∀ (fuel n : Nat) (acc : List Char) (a : Nat),
    n < 10 ^ fuel →
    ∃ p, parseNatAux (natToCharsCore fuel n acc) a =
      parseNatAux acc (a * p + n) := by
  intro fuel
  induction fuel with
  | zero =>
    intro n acc a hn
    have hn0 : n = 0 := by simpa using hn
    refine ⟨1, ?_⟩
    rw [hn0]
    simp [natToCharsCore]
  | succ f ih =>
    intro n acc a hn
    by_cases h10 : n < 10
    · refine ⟨10, ?_⟩
      unfold natToCharsCore
      rw [if_pos h10]
      show (match charToDigit (digitChar n) with
        | some d => parseNatAux acc (a * 10 + d)
        | none => none) = parseNatAux acc (a * 10 + n)
      rw [charToDigit_digitChar n h10]
    · have hdiv : n / 10 < 10 ^ f := by
        rw [Nat.div_lt_iff_lt_mul (by norm_num)]
        calc n < 10 ^ (f + 1) := hn
        _ = 10 ^ f * 10 := pow_succ 10 f
      obtain ⟨p, hp⟩ := ih (n / 10) (digitChar (n % 10) :: acc) a hdiv
      refine ⟨p * 10, ?_⟩
      unfold natToCharsCore
      rw [if_neg h10, hp]
      show (match charToDigit (digitChar (n % 10)) with
        | some d => parseNatAux acc ((a * p + n / 10) * 10 + d)
        | none => none) = parseNatAux acc (a * (p * 10) + n)
      rw [charToDigit_digitChar (n % 10) (Nat.mod_lt n (by norm_num))]
      show parseNatAux acc ((a * p + n / 10) * 10 + n % 10) =
        parseNatAux acc (a * (p * 10) + n)
      have hmod : n / 10 * 10 + n % 10 = n := by omega
      calc parseNatAux acc ((a * p + n / 10) * 10 + n % 10)
          = parseNatAux acc (a * (p * 10) + (n / 10 * 10 + n % 10)) := by
            ring_nf
        _ = parseNatAux acc (a * (p * 10) + n) := by rw [hmod]

theorem parseNat_natToChars (n : Nat) : parseNat (natToChars n) = some n := by
  have hfuel : n < 10 ^ (n + 1) :=
    lt_of_lt_of_le (Nat.lt_pow_self (by norm_num) n)
      (Nat.pow_le_pow_right (by norm_num) (Nat.le_succ n))
  obtain ⟨p, hp⟩ := core_round (n + 1) n [] 0 hfuel
  unfold parseNat natToChars
  rw [if_neg (natToCharsCore_ne_nil (n + 1) n []
    (Or.inr (Nat.succ_ne_zero n))), hp]
  have h0 : 0 * p + n = n := by omega
  rw [h0]
  rfl

theorem parseInt_intToChars (i : Int) : parseInt (intToChars i) = some i := by
  unfold intToChars
  split_ifs with hi
  · unfold parseInt
    rw [if_neg (List.cons_ne_nil _ _),
      if_pos (show ('-' :: natToChars i.natAbs).headD ' ' = '-' from rfl),
      show ('-' :: natToChars i.natAbs).drop 1 = natToChars i.natAbs from rfl,
      parseNat_natToChars]
    simp only [Option.map_some', Option.some.injEq, Int.ofNat_eq_coe]
    omega
  · have hne : natToChars i.natAbs ≠ [] :=
      natToCharsCore_ne_nil _ _ _ (Or.inr (Nat.succ_ne_zero _))
    cases hl : natToChars i.natAbs with
    | nil => exact absurd hl hne
    | cons c rest =>
      have hcd : ∃ d, d < 10 ∧ c = digitChar d := by
        have hmem : c ∈ natToChars i.natAbs := by
          rw [hl]
          exact List.mem_cons_self c rest
        exact natToCharsCore_chars _ _ _ (by intro x hx; simp at hx) c hmem
      obtain ⟨d, hd, hcd⟩ := hcd
      have hneg : c ≠ '-' := by
        rw [hcd]
        exact (digitChar_not_sign d hd).1
      have hplus : c ≠ '+' := by
        rw [hcd]
        exact (digitChar_not_sign d hd).2
      unfold parseInt
      rw [if_neg (List.cons_ne_nil _ _),
        if_neg (show ¬((c :: rest).headD ' ' = '-') from hneg),
        if_neg (show ¬((c :: rest).headD ' ' = '+') from hplus),
        ← hl, parseNat_natToChars]
      simp only [Option.map_some', Option.some.injEq, Int.ofNat_eq_coe]
      omega

/-! ## Round trip of the persisted schema -/

theorem parseKwStrs_map (kws : List (List Char)) :
    parseKwStrs (kws.map (fun kw => JVal.jstr kw)) = some kws := by
  induction kws with
  | nil => rfl
  | cons k rest ih => simp [parseKwStrs, ih]

theorem parseIntList_map (xs : List Int) :
    parseIntList (.jarr (xs.map (fun u => JVal.jint u))) = some xs := by
  induction xs with
  | nil => rfl
  | cons x rest ih =>
    simp only [parseIntList, List.map_cons, List.foldr_cons]
    simp only [parseIntList] at ih
    rw [ih]

theorem parseKwEntries_map (m : List (Int × List (List Char))) :
    parseKwEntries (m.map
      (fun e => (intToChars e.1, .jarr (e.2.map (fun kw => .jstr kw))))) =
      some m := by
  induction m with
  | nil => rfl
  | cons e rest ih =>
    simp only [List.map_cons, parseKwEntries, parseInt_intToChars, ih]
    rw [show parseKwList (.jarr (e.2.map (fun kw => .jstr kw))) =
        parseKwStrs (e.2.map (fun kw => .jstr kw)) from rfl,
      parseKwStrs_map]

/-- Saving and reloading restores the in-memory state exactly: the chat-id
keys survive `int(str(·))` and the keyword, admin and enabled collections
survive `set(list(·))`. -/
theorem load_save_id (st : BotState) :
    load_config (some (save_config st)) = st := by
  obtain ⟨m, cs, adm, en⟩ := st
  have e1 : parseKeywordsField
      (jgetF (saveFields ⟨m, cs, adm, en⟩) keySpoilerKeywords (.jobj [])) =
      some m := parseKwEntries_map m
  have e2 : truthy
      (jgetF (saveFields ⟨m, cs, adm, en⟩) keyCaseSensitive (.jbool false)) =
      cs := rfl
  have e3 : parseIntList
      (jgetF (saveFields ⟨m, cs, adm, en⟩) keyAdminUsers (.jarr [])) =
      some adm := parseIntList_map adm
  have e4 : parseIntList
      (jgetF (saveFields ⟨m, cs, adm, en⟩) keyEnabledChats (.jarr [])) =
      some en := parseIntList_map en
  simp only [save_config, load_config, e1, e2, e3, e4]

/-- C8: persistence round trip.  Saving any in-memory configuration and
loading the result restores it — the flag is identical and every per-chat
keyword set, the administrator set and the enabled-chat set have exactly
the same members (set equality; serialized order is irrelevant). -/
theorem c8_round_trip (st : BotState) :
    (load_config (some (save_config st))).case_sensitive =
        st.case_sensitive ∧
      (∀ (chat_id : Int) (kw : List Char),
        kw ∈ get_chat_keywords (load_config (some (save_config st))) chat_id ↔
          kw ∈ get_chat_keywords st chat_id) ∧
      (∀ u : Int,
        u ∈ (load_config (some (save_config st))).admin_users ↔
          u ∈ st.admin_users) ∧
      (∀ c : Int,
        c ∈ (load_config (some (save_config st))).enabled_chats ↔
          c ∈ st.enabled_chats) := by
  rw [load_save_id]
  exact ⟨rfl, fun _ _ => Iff.rfl, fun _ => Iff.rfl, fun _ => Iff.rfl⟩

end SpoilerBot
